import Mathlib

/-!
Verification of the GitLab merge-request review server (Custom-GitLab-MCP-Server).

The definitions below are shallow embeddings of the TypeScript/JavaScript
source: pure functions become Lean functions, imperative loops become
structural recursion, and calls to external collaborators (the GitLab HTTP
API, the text-generation services, `JSON.parse`/`JSON.stringify`) are
modelled as explicit function parameters (oracles).  JavaScript strings are
modelled as Lean `String`; the string primitives the source uses
(`split`, `startsWith`, `endsWith`, `toLowerCase`, template concatenation)
are implemented character-wise over `String.data` so that every definition
evaluates inside the kernel.
-/

/-- First-character test: JavaScript `s.startsWith(m)` for a one-character
marker `m`, as used on diff lines (`diffLine.startsWith("+")`,
`diffLine.startsWith("-")`). -/
def startsWithChar (s : String) (c : Char) : Bool :=
  match s.data with
  | [] => false
  | a :: _ => a == c

/-- JavaScript `s.split(sep)` for a one-character separator, over char
lists.  Always returns a non-empty list, like the JS `split`. -/
def splitOnChar (sep : Char) : List Char → List (List Char)
  | [] => [[]]
  | a :: rest =>
    match splitOnChar sep rest with
    | [] => [[a]]
    | h :: t => if a == sep then [] :: h :: t else (a :: h) :: t

/-- JavaScript `diff.split("\n")`: the diff text as a list of lines. -/
def splitLines (s : String) : List String :=
  (splitOnChar '\n' s.data).map (fun cs => ⟨cs⟩)

/-- JavaScript `s.endsWith(pat)`. -/
def endsWithStr (s pat : String) : Bool :=
  decide (pat.data <:+ s.data)

/-
## Diff Position Resolver (GitLabService.createDiscussion, gitlab service)

Source loop:
  let currentNewLine = 0; let found = false; let firstValidLine = null;
  for (const diffLine of diffLines) {
    if (diffLine.startsWith("+") || !diffLine.startsWith("-")) {
      currentNewLine++;
      if (firstValidLine === null) firstValidLine = currentNewLine;
      if (currentNewLine === line) { found = true; break; }
    }
  }
  let finalLine = line;
  if (!found) {
    if (firstValidLine !== null) finalLine = firstValidLine;
    else { <post plain fallback comment>; return; }
  }
-/

/-- The loop's counting condition: a diff line counts toward the new file
when it is an addition or does not start with the deletion marker. -/
def isAddable (diffLine : String) : Bool :=
  startsWithChar diffLine '+' || !startsWithChar diffLine '-'

/-- Number of addable (counted) lines of a diff. -/
def countAddable (diffLines : List String) : Nat :=
  diffLines.countP (fun d => isAddable d)

/-- The resolver loop.  `cur` is `currentNewLine`, `fv` is `firstValidLine`.
Returns `some finalLine` when the loop found the requested line or fell
back to the first valid line, and `none` when no valid line exists. -/
def resolveGo (line : Nat) : List String → Nat → Option Nat → Option Nat
  | [], _, fv => fv
  | d :: rest, cur, fv =>
    if isAddable d then
      if cur + 1 = line then some line
      else resolveGo line rest (cur + 1) (some (fv.getD (cur + 1)))
    else resolveGo line rest cur fv

/-- Diff position resolution: `resolvePosition diffLines line` is
`some finalLine` (the `new_line` used in the positioned discussion) or
`none` (the "no valid lines" fallback to a plain comment). -/
def resolvePosition (diffLines : List String) (line : Nat) : Option Nat :=
  resolveGo line diffLines 0 none

lemma resolveGo_found (line : Nat) :
    ∀ (l : List String) (cur : Nat) (fv : Option Nat),
      cur < line → line ≤ cur + countAddable l →
      resolveGo line l cur fv = some line := by
  intro l
  induction l with
  | nil =>
    intro cur fv hlt hle
    simp [countAddable] at hle
    omega
  | cons d rest ih =>
    intro cur fv hlt hle
    by_cases hd : isAddable d
    · rw [resolveGo, if_pos hd]
      by_cases heq : cur + 1 = line
      · rw [if_pos heq]
      · rw [if_neg heq]
        apply ih
        · omega
        · simp [countAddable, List.countP_cons, hd] at hle ⊢
          omega
    · rw [resolveGo, if_neg hd]
      apply ih
      · exact hlt
      · simp [countAddable, List.countP_cons, hd] at hle ⊢
        omega

lemma resolveGo_exhausted_some (line : Nat) :
    ∀ (l : List String) (cur f : Nat),
      cur + countAddable l < line →
      resolveGo line l cur (some f) = some f := by
  intro l
  induction l with
  | nil => intro cur f _; rfl
  | cons d rest ih =>
    intro cur f hlt
    by_cases hd : isAddable d
    · have hcount : countAddable (d :: rest) = countAddable rest + 1 := by
        simp [countAddable, List.countP_cons, hd]
      rw [resolveGo, if_pos hd]
      have hne : ¬ (cur + 1 = line) := by omega
      rw [if_neg hne]
      simp only [Option.getD_some]
      apply ih
      omega
    · have hcount : countAddable (d :: rest) = countAddable rest := by
        simp [countAddable, List.countP_cons, hd]
      rw [resolveGo, if_neg hd]
      apply ih
      omega

lemma resolveGo_exhausted_none (line : Nat) :
    ∀ (l : List String) (cur : Nat),
      cur + countAddable l < line →
      resolveGo line l cur none =
        if countAddable l = 0 then none else some (cur + 1) := by
  intro l
  induction l with
  | nil => intro cur _; simp [resolveGo, countAddable]
  | cons d rest ih =>
    intro cur hlt
    by_cases hd : isAddable d
    · have hcount : countAddable (d :: rest) = countAddable rest + 1 := by
        simp [countAddable, List.countP_cons, hd]
      rw [resolveGo, if_pos hd]
      have hne : ¬ (cur + 1 = line) := by omega
      rw [if_neg hne]
      simp only [Option.getD_none]
      rw [resolveGo_exhausted_some line rest (cur + 1) (cur + 1) (by omega)]
      rw [hcount]
      simp
    · have hcount : countAddable (d :: rest) = countAddable rest := by
        simp [countAddable, List.countP_cons, hd]
      rw [resolveGo, if_neg hd]
      rw [ih cur (by omega), hcount]

/-- Closed form of the resolver, shared by the claims about it. -/
lemma resolvePosition_eq (diffLines : List String) (line : Nat)
    (hline : 1 ≤ line) :
    resolvePosition diffLines line =
      if line ≤ countAddable diffLines then some line
      else if 1 ≤ countAddable diffLines then some 1
      else none := by
  unfold resolvePosition
  by_cases hfound : line ≤ countAddable diffLines
  · rw [if_pos hfound]
    exact resolveGo_found line diffLines 0 none (by omega) (by omega)
  · rw [if_neg hfound]
    rw [resolveGo_exhausted_none line diffLines 0 (by omega)]
    by_cases hz : countAddable diffLines = 0
    · rw [if_pos hz, if_neg (by omega)]
    · rw [if_neg hz, if_pos (by omega)]

/-- C1: the resolver walks the diff counting every line that is an addition
or does not start with the deletion marker; it anchors at the requested
line when the counter reaches it, and otherwise falls back to the first
counted line (whose counter value is 1, the counter value of the first
addable line encountered), returning no anchor only when the diff has no
addable line at all. -/
theorem resolvePosition_spec (diffLines : List String) (line : Nat)
    (hline : 1 ≤ line) :
    resolvePosition diffLines line =
      if line ≤ countAddable diffLines then some line
      else if 1 ≤ countAddable diffLines then some 1
      else none :=
  resolvePosition_eq diffLines line hline

/-- Witness for `resolvePosition_spec` on a concrete diff: five lines of
which four are addable, requested line 2 is anchored directly, requested
line 9 falls back to line 1. -/
theorem resolvePosition_spec_witness :
    1 ≤ 2 ∧
      resolvePosition ["@@ -1,2 +1,4 @@", "+a", "+b", "-c", " d"] 2 =
        if 2 ≤ countAddable ["@@ -1,2 +1,4 @@", "+a", "+b", "-c", " d"]
        then some 2
        else if 1 ≤ countAddable ["@@ -1,2 +1,4 @@", "+a", "+b", "-c", " d"]
        then some 1
        else none :=
  ⟨by decide, resolvePosition_spec ["@@ -1,2 +1,4 @@", "+a", "+b", "-c", " d"] 2 (by decide)⟩

/-- C2 counterexample: a pure-deletion diff (zero addition lines, with its
hunk header) is NOT reported unresolvable — the header line does not start
with the deletion marker, so it is counted and the resolver anchors the
discussion at counter value 1 instead of returning the unresolvable
outcome claimed for zero-addition diffs. -/
theorem resolvePosition_pure_deletion_counterexample :
    (∀ d ∈ ["@@ -1,3 +0,0 @@", "-a", "-b", "-c"], startsWithChar d '+' = false) ∧
      resolvePosition ["@@ -1,3 +0,0 @@", "-a", "-b", "-c"] 1 = some 1 := by
  decide

/-- C2 (amended): for a diff with at least one addition line the resolver
returns an anchor whose `new_line` is the counter value of an addable
(addition or non-deletion) diff line — deletion lines receive no counter
value, so the anchor never indexes one; and the resolver returns the
unresolvable outcome exactly when every diff line starts with the deletion
marker (zero addable lines), not merely zero addition lines. -/
theorem resolvePosition_addable_spec (diffLines : List String) (line : Nat)
    (hline : 1 ≤ line) :
    ((∃ d ∈ diffLines, startsWithChar d '+' = true) →
      ∃ n, resolvePosition diffLines line = some n ∧ 1 ≤ n ∧
        ∃ d, (diffLines.filter (fun d => isAddable d)).get? (n - 1) = some d ∧
          isAddable d = true) ∧
    (resolvePosition diffLines line = none ↔
      ∀ d ∈ diffLines, startsWithChar d '-' = true ∧ startsWithChar d '+' = false) := by
  have hcount : countAddable diffLines =
      (diffLines.filter (fun d => isAddable d)).length := by
    simp [countAddable, List.countP_eq_length_filter]
  constructor
  · rintro ⟨d₀, hd₀mem, hd₀⟩
    have hpos : 0 < countAddable diffLines := by
      rw [countAddable, List.countP_pos_iff]
      exact ⟨d₀, hd₀mem, by simp [isAddable, hd₀]⟩
    have hanchor : ∀ n, 1 ≤ n → n ≤ countAddable diffLines →
        ∃ d, (diffLines.filter (fun d => isAddable d)).get? (n - 1) = some d ∧
          isAddable d = true := by
      intro n h1 h2
      have hlen : n - 1 < (diffLines.filter (fun d => isAddable d)).length := by
        omega
      have hget := List.get?_eq_get hlen
      refine ⟨_, hget, ?_⟩
      have hmem : _ ∈ diffLines.filter (fun d => isAddable d) := List.get?_mem hget
      exact (List.mem_filter.mp hmem).2
    rw [resolvePosition_eq diffLines line hline]
    by_cases hfound : line ≤ countAddable diffLines
    · rw [if_pos hfound]
      exact ⟨line, rfl, hline, hanchor line hline hfound⟩
    · rw [if_neg hfound, if_pos (by omega)]
      exact ⟨1, rfl, le_refl 1, hanchor 1 (le_refl 1) (by omega)⟩
  · rw [resolvePosition_eq diffLines line hline]
    constructor
    · intro hnone d hdmem
      by_cases hfound : line ≤ countAddable diffLines
      · rw [if_pos hfound] at hnone
        exact absurd hnone (by simp)
      · rw [if_neg hfound] at hnone
        by_cases h1 : 1 ≤ countAddable diffLines
        · rw [if_pos h1] at hnone
          exact absurd hnone (by simp)
        · have hz : countAddable diffLines = 0 := by omega
          rw [countAddable, List.countP_eq_zero] at hz
          have := hz d hdmem
          simp [isAddable, startsWithChar] at this
          obtain ⟨hplus, hminus⟩ := this
          exact ⟨hminus, by simp [startsWithChar, hplus]⟩
    · intro hall
      have hz : countAddable diffLines = 0 := by
        rw [countAddable, List.countP_eq_zero]
        intro d hdmem
        obtain ⟨hminus, hplus⟩ := hall d hdmem
        simp [isAddable, hplus, hminus]
      rw [if_neg (by omega), if_neg (by omega)]

/-- Witness for `resolvePosition_addable_spec` on a concrete diff with one
addition line and one deletion line, at requested line 5. -/
theorem resolvePosition_addable_spec_witness :
    1 ≤ 5 ∧
      (((∃ d ∈ ["+x", "-y"], startsWithChar d '+' = true) →
        ∃ n, resolvePosition ["+x", "-y"] 5 = some n ∧ 1 ≤ n ∧
          ∃ d, (["+x", "-y"].filter (fun d => isAddable d)).get? (n - 1) = some d ∧
            isAddable d = true) ∧
      (resolvePosition ["+x", "-y"] 5 = none ↔
        ∀ d ∈ ["+x", "-y"], startsWithChar d '-' = true ∧ startsWithChar d '+' = false)) :=
  ⟨by decide, resolvePosition_addable_spec ["+x", "-y"] 5 (by decide)⟩

/-
## Data model (gitlab.types / GitLab API payloads)

`GitLabFileChange` carries the union of the fields the services read from a
GitLab change entry: `new_path`, `old_path`, `new_file`, `deleted_file`,
and the raw unified-diff text `diff`.
-/

structure DiffRefs where
  base_sha : String
  start_sha : String
  head_sha : String
deriving DecidableEq

structure GitLabFileChange where
  new_path : String
  old_path : String
  new_file : Bool
  deleted_file : Bool
  diff : String
deriving DecidableEq

/-- Response of `getMergeRequestChanges`: the MR changes plus diff refs
(absent `diff_refs` is a handled failure branch in `createDiscussion`). -/
structure MergeRequestChanges where
  diff_refs : Option DiffRefs
  changes : List GitLabFileChange
deriving DecidableEq

/-- A positioned discussion request sent to the GitLab discussions
endpoint (body plus the `position` fields the claims are about). -/
structure DiscussionPost where
  body : String
  new_path : String
  old_path : String
  new_line : Nat
deriving DecidableEq

/-- Observable effects of one `createDiscussion` call: plain MR comments
posted via `addMergeRequestComment`, and positioned discussion requests
sent to the discussions endpoint (attempted, whether or not accepted). -/
structure PublishTrace where
  plainComments : List String
  discussionPosts : List DiscussionPost
deriving DecidableEq

/-- `GitLabService.createDiscussion` (gitlab service of the MCP server),
with the merge-request changes already fetched and the collaborator API's
acceptance of the positioned call modelled by `apiAccepts`; the fallback
plain-comment posts are modelled as succeeding.  Every failure branch of
the source posts a plain comment and returns normally, which this total
function mirrors. -/
def createDiscussion (comment filePath : String) (line : Nat)
    (changes : MergeRequestChanges) (apiAccepts : Bool) : PublishTrace :=
  if comment = "" then ⟨[], []⟩
  else
    match changes.diff_refs with
    | none =>
      ⟨[comment ++ " (Note: Failed to create discussion thread due to missing diff context)"], []⟩
    | some _ =>
      match changes.changes.find? (fun c => c.new_path == filePath || c.old_path == filePath) with
      | none => ⟨[comment ++ " (Note: File " ++ filePath ++ " not found in diff)"], []⟩
      | some fileDiff =>
        match resolvePosition (splitLines fileDiff.diff) line with
        | none =>
          ⟨[comment ++ " (Note: No valid lines found in " ++ filePath ++ " to create discussion)"], []⟩
        | some finalLine =>
          let post : DiscussionPost :=
            ⟨comment, fileDiff.new_path,
              if fileDiff.old_path == "" then fileDiff.new_path else fileDiff.old_path,
              finalLine⟩
          if apiAccepts then ⟨[], [post]⟩
          else
            ⟨[comment ++ " (Note: Failed to create discussion thread for " ++ filePath ++ ":" ++ toString line ++ ")"],
              [post]⟩

set_option maxRecDepth 8000 in
/-- C8 counterexample: when the resolver finds no valid lines (diff
`"-a\n-b"`), the single fallback comment names the file but NOT the line —
the posted body for line 3 does not contain `"3"`, so the fallback note
does not name the original file AND line as claimed. -/
theorem createDiscussion_fallback_counterexample :
    (createDiscussion "Needs fix" "a.txt" 3
        ⟨some ⟨"b", "s", "h"⟩, [⟨"a.txt", "a.txt", false, false, "-a\n-b"⟩]⟩ true).plainComments =
      ["Needs fix (Note: No valid lines found in a.txt to create discussion)"] ∧
    ¬ ((toString (3 : Nat)).data <:+:
        "Needs fix (Note: No valid lines found in a.txt to create discussion)".data) := by
  decide

/-- C8 (amended): once the changes and the file diff are found, a failed
positioned discussion results in exactly one plain comment that contains
the original note text and a fallback note naming the original file; the
line number is additionally named when the collaborator API rejects the
anchored request, but not when the resolver found no valid lines. -/
theorem createDiscussion_fallback_spec (comment filePath : String) (line : Nat)
    (changes : MergeRequestChanges) (apiAccepts : Bool) (refs : DiffRefs)
    (fileDiff : GitLabFileChange)
    (hc : comment ≠ "")
    (hrefs : changes.diff_refs = some refs)
    (hfind : changes.changes.find?
      (fun c => c.new_path == filePath || c.old_path == filePath) = some fileDiff) :
    (resolvePosition (splitLines fileDiff.diff) line = none →
      (createDiscussion comment filePath line changes apiAccepts).plainComments =
        [comment ++ " (Note: No valid lines found in " ++ filePath ++ " to create discussion)"] ∧
      comment.data <:+:
        (comment ++ " (Note: No valid lines found in " ++ filePath ++ " to create discussion)").data ∧
      filePath.data <:+:
        (comment ++ " (Note: No valid lines found in " ++ filePath ++ " to create discussion)").data) ∧
    (∀ n, resolvePosition (splitLines fileDiff.diff) line = some n → apiAccepts = false →
      (createDiscussion comment filePath line changes apiAccepts).plainComments =
        [comment ++ " (Note: Failed to create discussion thread for " ++ filePath ++ ":" ++ toString line ++ ")"] ∧
      comment.data <:+:
        (comment ++ " (Note: Failed to create discussion thread for " ++ filePath ++ ":" ++ toString line ++ ")").data ∧
      filePath.data <:+:
        (comment ++ " (Note: Failed to create discussion thread for " ++ filePath ++ ":" ++ toString line ++ ")").data ∧
      (toString line).data <:+:
        (comment ++ " (Note: Failed to create discussion thread for " ++ filePath ++ ":" ++ toString line ++ ")").data) := by
  constructor
  · intro hres
    refine ⟨?_, ?_, ?_⟩
    · simp only [createDiscussion, if_neg hc, hrefs, hfind, hres]
    · exact ⟨[], (" (Note: No valid lines found in " ++ filePath ++ " to create discussion)").data,
        by simp⟩
    · exact ⟨(comment ++ " (Note: No valid lines found in ").data, " to create discussion)".data,
        by simp⟩
  · intro n hres hrej
    refine ⟨?_, ?_, ?_, ?_⟩
    · simp only [createDiscussion, if_neg hc, hrefs, hfind, hres, hrej]
      simp
    · exact ⟨[],
        (" (Note: Failed to create discussion thread for " ++ filePath ++ ":" ++ toString line ++ ")").data,
        by simp⟩
    · exact ⟨(comment ++ " (Note: Failed to create discussion thread for ").data,
        (":" ++ toString line ++ ")").data, by simp⟩
    · exact ⟨(comment ++ " (Note: Failed to create discussion thread for " ++ filePath ++ ":").data,
        ")".data, by simp⟩

/-- Witness for `createDiscussion_fallback_spec` at a concrete call whose
file diff has no valid lines and whose API rejects anchored calls. -/
theorem createDiscussion_fallback_spec_witness :
    ("Fix" : String) ≠ "" ∧
    (MergeRequestChanges.mk (some ⟨"b", "s", "h"⟩)
        [⟨"a.txt", "a.txt", false, false, "-a\n-b"⟩]).diff_refs = some ⟨"b", "s", "h"⟩ ∧
    ((MergeRequestChanges.mk (some ⟨"b", "s", "h"⟩)
        [⟨"a.txt", "a.txt", false, false, "-a\n-b"⟩]).changes.find?
      (fun c => c.new_path == "a.txt" || c.old_path == "a.txt") =
        some ⟨"a.txt", "a.txt", false, false, "-a\n-b"⟩) ∧
    ((resolvePosition (splitLines "-a\n-b") 7 = none →
      (createDiscussion "Fix" "a.txt" 7
          ⟨some ⟨"b", "s", "h"⟩, [⟨"a.txt", "a.txt", false, false, "-a\n-b"⟩]⟩ false).plainComments =
        ["Fix" ++ " (Note: No valid lines found in " ++ "a.txt" ++ " to create discussion)"] ∧
      ("Fix" : String).data <:+:
        ("Fix" ++ " (Note: No valid lines found in " ++ "a.txt" ++ " to create discussion)").data ∧
      ("a.txt" : String).data <:+:
        ("Fix" ++ " (Note: No valid lines found in " ++ "a.txt" ++ " to create discussion)").data) ∧
    (∀ n, resolvePosition (splitLines "-a\n-b") 7 = some n → false = false →
      (createDiscussion "Fix" "a.txt" 7
          ⟨some ⟨"b", "s", "h"⟩, [⟨"a.txt", "a.txt", false, false, "-a\n-b"⟩]⟩ false).plainComments =
        ["Fix" ++ " (Note: Failed to create discussion thread for " ++ "a.txt" ++ ":" ++ toString 7 ++ ")"] ∧
      ("Fix" : String).data <:+:
        ("Fix" ++ " (Note: Failed to create discussion thread for " ++ "a.txt" ++ ":" ++ toString 7 ++ ")").data ∧
      ("a.txt" : String).data <:+:
        ("Fix" ++ " (Note: Failed to create discussion thread for " ++ "a.txt" ++ ":" ++ toString 7 ++ ")").data ∧
      (toString 7).data <:+:
        ("Fix" ++ " (Note: Failed to create discussion thread for " ++ "a.txt" ++ ":" ++ toString 7 ++ ")").data)) :=
  ⟨by decide, rfl, by decide,
    createDiscussion_fallback_spec "Fix" "a.txt" 7
      ⟨some ⟨"b", "s", "h"⟩, [⟨"a.txt", "a.txt", false, false, "-a\n-b"⟩]⟩ false
      ⟨"b", "s", "h"⟩ ⟨"a.txt", "a.txt", false, false, "-a\n-b"⟩
      (by decide) rfl (by decide)⟩

/-
## Recommendation extraction (claude service)

Source:
  const recommendationMatch = overallReview.match(
    /## Recommendation\s+(APPROVE|APPROVE WITH MINOR CHANGES|REQUEST CHANGES)/i);
  if (recommendationMatch) return recommendationMatch[1].toUpperCase();
  return 'PENDING REVIEW';

JavaScript regex semantics embedded here: the engine tries match positions
left to right; at a position the literal header is compared
case-insensitively, `\s+` consumes a maximal non-empty whitespace run
(backtracking cannot help, as no alternative starts with whitespace), and
the alternation is tried IN ORDER, so `APPROVE` wins whenever it is a
prefix of the text, even when `APPROVE WITH MINOR CHANGES` follows.  The
model returns the canonical upper-case label, mirroring
`match[1].toUpperCase()`.
-/

/-- Case-insensitive literal match of a pattern at the head of the text. -/
def ciMatchesAt : List Char → List Char → Bool
  | [], _ => true
  | _ :: _, [] => false
  | p :: ps, c :: cs => (p.toLower == c.toLower) && ciMatchesAt ps cs

/-- The regex alternation, tried in source order (leftmost alternative
first, as in JavaScript). -/
def matchLabelAt (cs : List Char) : Option String :=
  if ciMatchesAt "APPROVE".data cs then some "APPROVE"
  else if ciMatchesAt "APPROVE WITH MINOR CHANGES".data cs then
    some "APPROVE WITH MINOR CHANGES"
  else if ciMatchesAt "REQUEST CHANGES".data cs then some "REQUEST CHANGES"
  else none

/-- One match attempt at a fixed position: the section header, then a
non-empty whitespace run, then the alternation. -/
def matchRecommendationAt (cs : List Char) : Option String :=
  if ciMatchesAt "## Recommendation".data cs then
    match cs.drop ("## Recommendation".data.length) with
    | [] => none
    | c :: rest =>
      if c.isWhitespace then matchLabelAt ((c :: rest).dropWhile Char.isWhitespace)
      else none
  else none

/-- `String.prototype.match`: first position (left to right) where the
pattern matches. -/
def findRecommendationMatch : List Char → Option String
  | [] => none
  | c :: cs =>
    match matchRecommendationAt (c :: cs) with
    | some r => some r
    | none => findRecommendationMatch cs

/-- `extractRecommendation` of the claude service. -/
def extractRecommendation (overallReview : String) : String :=
  (findRecommendationMatch overallReview.data).getD "PENDING REVIEW"

/-- `reviewMergeRequest`: the merge request is auto-approved iff the
extracted recommendation is exactly the string APPROVE. -/
def approvesFromOverallReview (overallReview : String) : Bool :=
  extractRecommendation overallReview == "APPROVE"

set_option maxRecDepth 20000 in
/-- C3 evaluated at the failing input: a narrative whose Recommendation
section reads APPROVE WITH MINOR CHANGES is extracted as APPROVE (the
leftmost alternative of the regex alternation matches first), so the merge
request is auto-approved; the other labelled and unlabelled cases behave
as claimed. -/
theorem extractRecommendation_minor_changes_bug :
    extractRecommendation "## Recommendation\nAPPROVE WITH MINOR CHANGES" = "APPROVE" ∧
    approvesFromOverallReview "## Recommendation\nAPPROVE WITH MINOR CHANGES" = true ∧
    extractRecommendation "## Recommendation\nREQUEST CHANGES" = "REQUEST CHANGES" ∧
    extractRecommendation "no labelled section" = "PENDING REVIEW" := by
  decide

/-
## Structured review results (chatgpt service / code-review service)
-/

structure SpecificComment where
  filePath : String
  line : Nat
  comment : String
deriving DecidableEq

/-- `ReviewResult` of the MCP code-review path: numeric score (a JS
number, modelled as a rational), overall comment, and per-line comments. -/
structure ReviewResult where
  score : ℚ
  overallComment : String
  specificComments : List SpecificComment
deriving DecidableEq

/-- Outcome of the `review_code` tool case of the call-tool controller
(and of the webhook route): the reported status string and whether
`approveMergeRequest` is called.  Source: `const approved = review.score >= 8;
if (approved) { await gitlabService.approveMergeRequest(...); ... }`. -/
structure ReviewCodeOutcome where
  status : String
  approvalRequested : Bool
deriving DecidableEq

def reviewCodeToolOutcome (review : ReviewResult) : ReviewCodeOutcome :=
  if 8 ≤ review.score then ⟨"approved", true⟩ else ⟨"needs_work", false⟩

/-- C4: the merge request is approved iff the review score is at least 8;
the threshold is inclusive (score exactly 8 approves, score 7.9 does
not). -/
theorem thresholdApproval_spec :
    (∀ review : ReviewResult,
      (reviewCodeToolOutcome review).approvalRequested = true ↔ 8 ≤ review.score) ∧
    (reviewCodeToolOutcome ⟨8, "", []⟩).approvalRequested = true ∧
    (reviewCodeToolOutcome ⟨79 / 10, "", []⟩).approvalRequested = false ∧
    (reviewCodeToolOutcome ⟨8, "", []⟩).status = "approved" ∧
    (reviewCodeToolOutcome ⟨79 / 10, "", []⟩).status = "needs_work" := by
  have hlt : ¬ (8 ≤ (79 / 10 : ℚ)) := by norm_num
  refine ⟨?_, ?_, ?_, ?_, ?_⟩
  · intro review
    by_cases h : 8 ≤ review.score
    · simp [reviewCodeToolOutcome, h]
    · simp [reviewCodeToolOutcome, h]
  · simp [reviewCodeToolOutcome]
  · simp [reviewCodeToolOutcome, hlt]
  · simp [reviewCodeToolOutcome]
  · simp [reviewCodeToolOutcome, hlt]

/-
## Change Classifier (code-review service, MCP variant)

Source:
  ignoreFiles = [...new Set([...this.defaultIgnoreFiles, ...ignoreFiles])];
  const filteredChanges = changes.changes.filter(
    (change) => !ignoreFiles.includes(change.new_path));
  const MAX_CHANGES_THRESHOLD = 10;
  if (filteredChanges.length > MAX_CHANGES_THRESHOLD) { return zero-score; }
  const reviewResult = await chatGptService.reviewChanges(filteredChanges);
-/

def defaultIgnoreFiles : List String :=
  [".gitignore", "VERSION.md", "pubspec.yaml", "pubspec.lock", "README.md",
    "LICENSE", "LICENSE.md", "package.json", "package-lock.json"]

/-- `[...new Set([...defaultIgnoreFiles, ...ignoreFiles])]`: insertion-order
deduplication of the default entries united with the caller's. -/
def resolveIgnoreFiles (ignoreFiles : List String) : List String :=
  (defaultIgnoreFiles ++ ignoreFiles).foldl
    (fun acc x => if acc.contains x then acc else acc ++ [x]) []

/-- The filter of `reviewCode`: keep a change unless its `new_path` is an
entry of the resolved ignore list (`!ignoreFiles.includes(change.new_path)`). -/
def reviewCodeFilteredChanges (changes : List GitLabFileChange)
    (ignoreFiles : List String) : List GitLabFileChange :=
  changes.filter (fun change => !(resolveIgnoreFiles ignoreFiles).contains change.new_path)

def MAX_CHANGES_THRESHOLD : Nat := 10

/-- `CodeReviewService.reviewCode` with the merge-request changes already
fetched and `chatGptService.reviewChanges` as an oracle; the returned
`Bool` records whether the external text-generation service was invoked. -/
def reviewCode (externalReview : List GitLabFileChange → ReviewResult)
    (changes : List GitLabFileChange) (ignoreFiles : List String) :
    ReviewResult × Bool :=
  let filteredChanges := reviewCodeFilteredChanges changes ignoreFiles
  if filteredChanges.length > MAX_CHANGES_THRESHOLD then
    (⟨0, "Number of changed files is too large to review effectively. Score: 0", []⟩, false)
  else
    (externalReview filteredChanges, true)

/-
## Change Classifier (narrative pipeline: code-review.service.ts)

Source:
  const extension = filePath.split('.').pop()?.toLowerCase() || '';
  const excludedExtensions = ['md','txt','json','lock','png','jpg','jpeg','gif','svg'];
  return !excludedExtensions.includes(extension);
-/

def excludedExtensions : List String :=
  ["md", "txt", "json", "lock", "png", "jpg", "jpeg", "gif", "svg"]

def getFileExtension (filePath : String) : String :=
  ⟨((splitOnChar '.' filePath.data).getLastD []).map Char.toLower⟩

def shouldReviewFile (file : GitLabFileChange) : Bool :=
  !excludedExtensions.contains (getFileExtension file.new_path)

def filesToReview (changedFiles : List GitLabFileChange) : List GitLabFileChange :=
  changedFiles.filter shouldReviewFile

/-- Modelled from the claim's words, for comparison with the code: the
final path-segment (basename) of a path. -/
def specBasename (filePath : String) : String :=
  ⟨(splitOnChar '/' filePath.data).getLastD []⟩

lemma mem_foldl_dedup (l : List String) :
    ∀ (acc : List String) (x : String),
      x ∈ l.foldl (fun acc y => if acc.contains y then acc else acc ++ [y]) acc ↔
        x ∈ acc ∨ x ∈ l := by
  induction l with
  | nil => intro acc x; simp
  | cons a t ih =>
    intro acc x
    rw [List.foldl_cons]
    by_cases h : acc.contains a
    · rw [if_pos h, ih]
      have ha : a ∈ acc := by simpa using h
      constructor
      · rintro (hx | hx)
        · exact Or.inl hx
        · exact Or.inr (List.mem_cons_of_mem a hx)
      · rintro (hx | hx)
        · exact Or.inl hx
        · rcases List.mem_cons.mp hx with rfl | hx
          · exact Or.inl ha
          · exact Or.inr hx
    · rw [if_neg h, ih]
      simp [List.mem_append, List.mem_cons]
      tauto

lemma mem_resolveIgnoreFiles (x : String) (ignoreFiles : List String) :
    x ∈ resolveIgnoreFiles ignoreFiles ↔ x ∈ defaultIgnoreFiles ++ ignoreFiles := by
  rw [resolveIgnoreFiles, mem_foldl_dedup]
  simp

set_option maxRecDepth 8000 in
/-- C6 counterexample: the file `docs/README.md`, whose basename
`README.md` is an entry of the resolved ignore set, is NOT excluded by
`reviewCode` — the filter compares the full `new_path` against the ignore
entries, not the basename. -/
theorem basename_ignore_counterexample :
    specBasename "docs/README.md" = "README.md" ∧
    "README.md" ∈ resolveIgnoreFiles [] ∧
    reviewCodeFilteredChanges [⟨"docs/README.md", "docs/README.md", false, false, ""⟩] [] =
      [⟨"docs/README.md", "docs/README.md", false, false, ""⟩] := by
  decide

/-- C6 (amended): `reviewCode` excludes exactly the files whose full
`new_path` is an entry of the resolved ignore set (so a nested file whose
basename matches an entry is still reviewed), and the narrative pipeline's
`shouldReviewFile` filter separately excludes every file whose extension
is in the fixed excluded-extension set. -/
theorem classifier_exclusion_spec :
    (∀ (changes : List GitLabFileChange) (ignoreFiles : List String)
        (c : GitLabFileChange),
      c ∈ reviewCodeFilteredChanges changes ignoreFiles →
        ¬ c.new_path ∈ resolveIgnoreFiles ignoreFiles) ∧
    (∀ (changedFiles : List GitLabFileChange) (f : GitLabFileChange),
      f ∈ filesToReview changedFiles →
        ¬ getFileExtension f.new_path ∈ excludedExtensions) := by
  constructor
  · intro changes ig c hc
    have h := (List.mem_filter.mp hc).2
    simpa using h
  · intro changedFiles f hf
    have h := (List.mem_filter.mp hf).2
    simp [shouldReviewFile] at h
    simpa using h

set_option maxRecDepth 8000 in
/-- Witness for `classifier_exclusion_spec` at a concrete change-set
containing one reviewable TypeScript file. -/
theorem classifier_exclusion_spec_witness :
    (⟨"src/app.ts", "src/app.ts", false, false, ""⟩ : GitLabFileChange) ∈
      reviewCodeFilteredChanges [⟨"src/app.ts", "src/app.ts", false, false, ""⟩] [] ∧
    ¬ (GitLabFileChange.mk "src/app.ts" "src/app.ts" false false "").new_path ∈
      resolveIgnoreFiles [] ∧
    (⟨"src/app.ts", "src/app.ts", false, false, ""⟩ : GitLabFileChange) ∈
      filesToReview [⟨"src/app.ts", "src/app.ts", false, false, ""⟩] ∧
    ¬ getFileExtension (GitLabFileChange.mk "src/app.ts" "src/app.ts" false false "").new_path ∈
      excludedExtensions :=
  ⟨by decide,
    classifier_exclusion_spec.1 [⟨"src/app.ts", "src/app.ts", false, false, ""⟩] []
      ⟨"src/app.ts", "src/app.ts", false, false, ""⟩ (by decide),
    by decide,
    classifier_exclusion_spec.2 [⟨"src/app.ts", "src/app.ts", false, false, ""⟩]
      ⟨"src/app.ts", "src/app.ts", false, false, ""⟩ (by decide)⟩

lemma contains_resolveIgnoreFiles_self_union (x : String) (ignoreFiles : List String) :
    (resolveIgnoreFiles (ignoreFiles ++ ignoreFiles)).contains x =
      (resolveIgnoreFiles ignoreFiles).contains x := by
  simp only [List.contains, List.elem_eq_mem]
  apply decide_eq_decide.mpr
  rw [mem_resolveIgnoreFiles, mem_resolveIgnoreFiles]
  simp [List.mem_append]

/-- C9: the classification (and hence the whole `reviewCode` outcome,
given the same external review function) is unchanged when the
caller-supplied ignore list is replaced by its union with itself — the
default and caller entries are collapsed with set semantics before
filtering. -/
theorem reviewCode_ignore_idempotent
    (externalReview : List GitLabFileChange → ReviewResult)
    (changes : List GitLabFileChange) (ignoreFiles : List String) :
    reviewCodeFilteredChanges changes (ignoreFiles ++ ignoreFiles) =
      reviewCodeFilteredChanges changes ignoreFiles ∧
    reviewCode externalReview changes (ignoreFiles ++ ignoreFiles) =
      reviewCode externalReview changes ignoreFiles := by
  have hfilter : reviewCodeFilteredChanges changes (ignoreFiles ++ ignoreFiles) =
      reviewCodeFilteredChanges changes ignoreFiles := by
    unfold reviewCodeFilteredChanges
    apply List.filter_congr
    intro c _
    rw [contains_resolveIgnoreFiles_self_union]
  refine ⟨hfilter, ?_⟩
  unfold reviewCode
  rw [hfilter]

/-- C10 (implicit): `reviewCode` enforces a hard cap of 10 on the number
of non-ignored files — above it, the fixed zero-score result is returned
with an empty specific-comment list and the external text-generation
service is not invoked. -/
theorem reviewCode_file_cap
    (externalReview : List GitLabFileChange → ReviewResult)
    (changes : List GitLabFileChange) (ignoreFiles : List String)
    (hcap : (reviewCodeFilteredChanges changes ignoreFiles).length > MAX_CHANGES_THRESHOLD) :
    reviewCode externalReview changes ignoreFiles =
      (⟨0, "Number of changed files is too large to review effectively. Score: 0", []⟩, false) := by
  unfold reviewCode
  rw [if_pos hcap]

set_option maxRecDepth 8000 in
/-- Witness for `reviewCode_file_cap`: eleven non-ignored files. -/
theorem reviewCode_file_cap_witness :
    (reviewCodeFilteredChanges
        (List.replicate 11 ⟨"a.ts", "a.ts", false, false, ""⟩) []).length >
      MAX_CHANGES_THRESHOLD ∧
    reviewCode (fun _ => ⟨5, "ok", []⟩)
        (List.replicate 11 ⟨"a.ts", "a.ts", false, false, ""⟩) [] =
      (⟨0, "Number of changed files is too large to review effectively. Score: 0", []⟩, false) :=
  ⟨by decide,
    reviewCode_file_cap (fun _ => ⟨5, "ok", []⟩)
      (List.replicate 11 ⟨"a.ts", "a.ts", false, false, ""⟩) [] (by decide)⟩

/-
## Per-changes reviewer (chatgpt service, MCP variant)

Source:
  const content = JSON.stringify(changes);
  if (content.length > 30000) { return zero-score result; }
  ... axios call ...
  return { score: result.score,
           overallComment: result.overallComment + " Score: " + result.score,
           specificComments: result.specificComments || [] };

`JSON.stringify` and the chat-completions call are external collaborators,
modelled as the function parameters `stringify` and `callModel`; the
returned `Bool` records whether the external service was invoked.
-/

def reviewChanges {α : Type} (stringify : α → String)
    (callModel : String → ReviewResult) (changes : α) : ReviewResult × Bool :=
  let content := stringify changes
  if content.length > 30000 then
    (⟨0, "The changeset is too large to review effectively. Score: 0", []⟩, false)
  else
    let result := callModel content
    (⟨result.score, result.overallComment ++ " Score: " ++ toString result.score,
      result.specificComments⟩, true)

/-- C7: whenever the serialized change-set exceeds 30000 characters,
`reviewChanges` immediately returns the fixed zero-score result with an
empty specific-comment list and never invokes the external
text-generation service. -/
theorem reviewChanges_size_ceiling {α : Type} (stringify : α → String)
    (callModel : String → ReviewResult) (changes : α)
    (hlen : (stringify changes).length > 30000) :
    reviewChanges stringify callModel changes =
      (⟨0, "The changeset is too large to review effectively. Score: 0", []⟩, false) := by
  simp only [reviewChanges]
  rw [if_pos hlen]

/-- Witness for `reviewChanges_size_ceiling` with a 30001-character
serialization. -/
theorem reviewChanges_size_ceiling_witness :
    ((fun _ => (⟨List.replicate 30001 'a'⟩ : String)) ()).length > 30000 ∧
    reviewChanges (fun _ => (⟨List.replicate 30001 'a'⟩ : String))
        (fun _ => ⟨5, "ok", []⟩) () =
      (⟨0, "The changeset is too large to review effectively. Score: 0", []⟩, false) :=
  have hlen : ((fun _ => (⟨List.replicate 30001 'a'⟩ : String)) ()).length > 30000 := by
    show 30000 < (List.replicate 30001 'a').length
    rw [List.length_replicate]
    omega
  ⟨hlen, reviewChanges_size_ceiling _ _ () hlen⟩

/-
## Version-bump checklist rule (claude service: checkVersionUpdate)

`getFileContent` is the collaborator callback
`(projectId, filePath, ref) => content`; `parseVersionField` models
`JSON.parse(content).version` (`none` models a parse exception; in the
source the catch message appends the JS error text).  The returned list
records every `getFileContent` call as (filePath, ref), in order.  Note
the source fetches the prior content with
`getFileContent(projectId, versionFileChange.old_path, versionFileChange.old_path)` —
the old PATH is passed as the ref argument.
-/

structure VersionCheckResult where
  updated : Bool
  message : String
deriving DecidableEq

structure FetchCall where
  filePath : String
  ref : String
deriving DecidableEq

def checkVersionUpdate (changedFiles : List GitLabFileChange)
    (getFileContent : Nat → String → String → String)
    (parseVersionField : String → Option String)
    (projectId : Nat) (branchName : String) :
    VersionCheckResult × List FetchCall :=
  match changedFiles.find? (fun file =>
      file.new_path == "version.json" || endsWithStr file.new_path "/version.json") with
  | none => (⟨false, "version.json was not updated in this merge request"⟩, [])
  | some versionFileChange =>
    let newContent := getFileContent projectId versionFileChange.new_path branchName
    let fetchNew : FetchCall := ⟨versionFileChange.new_path, branchName⟩
    if versionFileChange.new_file then
      (⟨true, "version.json was added in this merge request"⟩, [fetchNew])
    else
      let oldContent := getFileContent projectId versionFileChange.old_path versionFileChange.old_path
      let fetchOld : FetchCall := ⟨versionFileChange.old_path, versionFileChange.old_path⟩
      match parseVersionField newContent, parseVersionField oldContent with
      | some newVersion, some oldVersion =>
        if newVersion == oldVersion then
          (⟨false, "version.json was modified but the version number was not increased"⟩,
            [fetchNew, fetchOld])
        else
          (⟨true, "Version was updated from " ++ oldVersion ++ " to " ++ newVersion⟩,
            [fetchNew, fetchOld])
      | _, _ => (⟨false, "Error parsing version.json"⟩, [fetchNew, fetchOld])

set_option maxRecDepth 8000 in
/-- C5 evaluated on concrete inputs: absent manifest fails with the
"not updated" message, a newly added manifest passes, equal versions fail
with the "not increased" message, and differing versions pass citing both;
but the prior content of a modified manifest is fetched with the file's
old path passed as the ref argument (second recorded fetch is
("version.json", "version.json")) — never at the diff base revision, which
is not even an input of the rule. -/
theorem checkVersionUpdate_base_ref_bug :
    checkVersionUpdate []
        (fun _ _ ref => if ref == "feature-branch" then "NEW" else "OLD")
        (fun content => if content == "NEW" then some "1.0.1" else some "1.0.0")
        1 "feature-branch" =
      (⟨false, "version.json was not updated in this merge request"⟩, []) ∧
    checkVersionUpdate [⟨"version.json", "version.json", true, false, ""⟩]
        (fun _ _ ref => if ref == "feature-branch" then "NEW" else "OLD")
        (fun content => if content == "NEW" then some "1.0.1" else some "1.0.0")
        1 "feature-branch" =
      (⟨true, "version.json was added in this merge request"⟩,
        [⟨"version.json", "feature-branch"⟩]) ∧
    checkVersionUpdate [⟨"version.json", "version.json", false, false, ""⟩]
        (fun _ _ ref => if ref == "feature-branch" then "NEW" else "OLD")
        (fun _ => some "1.0.0")
        1 "feature-branch" =
      (⟨false, "version.json was modified but the version number was not increased"⟩,
        [⟨"version.json", "feature-branch"⟩, ⟨"version.json", "version.json"⟩]) ∧
    checkVersionUpdate [⟨"version.json", "version.json", false, false, ""⟩]
        (fun _ _ ref => if ref == "feature-branch" then "NEW" else "OLD")
        (fun content => if content == "NEW" then some "1.0.1" else some "1.0.0")
        1 "feature-branch" =
      (⟨true, "Version was updated from 1.0.0 to 1.0.1"⟩,
        [⟨"version.json", "feature-branch"⟩, ⟨"version.json", "version.json"⟩]) := by
  decide
